import Mathlib

/-!
Verification of the image-squaring batch pipeline (`source.py`).

The development shallowly embeds the repository's pure logic:
* `safe_dest_path` with its SHA-1 based filename shortening,
* the square classifier `is_image_square`,
* the squaring transform (PIL `Image.new` + `paste`, modelled at pixel level),
* the batch pipeline `process_images_locally` over a model filesystem.

Filesystem conventions are modelled for POSIX (`os.name != "nt"`, so
`as_winlong` is the identity and `os.path.join` inserts "/").  External
library primitives (`hashlib.sha1`, PIL decode/encode) are embedded
faithfully where their behavior matters: SHA-1 is implemented in full,
image decoding is abstracted to a file either being unreadable or having
decoded dimensions, exactly the information the pipeline consumes.
-/

namespace SquarePipe

/-! ## Basic string helpers (Python semantics) -/

/-- Python `s[:k]` on strings: take the first `k` characters. -/
def strTake (s : String) (k : Nat) : String := ⟨s.data.take k⟩

/-- ASCII lower-casing of a character, as needed by `str.lower()` on the
extension allow-list (all relevant characters are ASCII). -/
def asciiLower (c : Char) : Char :=
  if 65 ≤ c.toNat ∧ c.toNat ≤ 90 then Char.ofNat (c.toNat + 32) else c

/-- `str.lower()` restricted to ASCII case mapping. -/
def strLower (s : String) : String := ⟨s.data.map asciiLower⟩

/-- `str.endswith(suffix)`. -/
def endsWithStr (s suffix : String) : Bool := suffix.data.isSuffixOf s.data

/-- `os.path.join(base, name)` with POSIX separators (name not absolute). -/
def pathJoin (base name : String) : String :=
  if endsWithStr base "/" then base ++ name else base ++ "/" ++ name

/-- `os.path.basename`: the part after the last "/". -/
def basenameAux : List Char → List Char → List Char
  | acc, [] => acc.reverse
  | acc, c :: cs => if c = '/' then basenameAux [] cs else basenameAux (c :: acc) cs

/-- `os.path.basename` (POSIX). -/
def basename (s : String) : String := ⟨basenameAux [] s.data⟩

/-- Index (from the start) of the last occurrence of `c`, CPython `str.rfind`
style: `none` when absent. -/
def rfindChar (s : List Char) (c : Char) : Option Nat :=
  (List.range s.length).foldl
    (fun acc i => if s.get? i = some c then some i else acc) none

/-- `os.path.splitext` (POSIX): split off the extension at the last dot,
except that a basename consisting only of leading dots has no extension. -/
def splitext (p : String) : String × String :=
  let cs := p.data
  let sepIndex : Option Nat := rfindChar cs '/'
  let dotIndex : Option Nat := rfindChar cs '.'
  let startIdx : Nat := match sepIndex with | some i => i + 1 | none => 0
  match dotIndex with
  | none => (p, "")
  | some d =>
      if startIdx ≤ d ∧
         ((List.range (d - startIdx)).any (fun j => cs.get? (startIdx + j) ≠ some '.')) then
        (⟨cs.take d⟩, ⟨cs.drop d⟩)
      else
        (p, "")

/-! ## SHA-1 (model of Python `hashlib.sha1(...).hexdigest()`) -/

/-- UTF-8 encoding of a single code point (`str.encode("utf-8")`). -/
def utf8Char (c : Nat) : List Nat :=
  if c < 128 then [c]
  else if c < 2048 then [192 + c / 64, 128 + c % 64]
  else if c < 65536 then [224 + c / 4096, 128 + (c / 64) % 64, 128 + c % 64]
  else [240 + c / 262144, 128 + (c / 4096) % 64, 128 + (c / 64) % 64, 128 + c % 64]

/-- UTF-8 encoding of a string as a byte list. -/
def utf8Encode (s : String) : List Nat := s.data.flatMap (fun c => utf8Char c.toNat)

def w32 : Nat := 4294967296

/-- 32-bit left rotation. -/
def rotl (n x : Nat) : Nat := ((x <<< n) % w32) ||| (x >>> (32 - n))

/-- Big-endian bytes (most significant first) of `n`, `width` bytes. -/
def beBytes : Nat → Nat → List Nat
  | 0, _ => []
  | width + 1, n => beBytes width (n / 256) ++ [n % 256]

/-- SHA-1 message padding: append 0x80, zero-fill to 56 mod 64, then the
64-bit big-endian bit length. -/
def sha1pad (msg : List Nat) : List Nat :=
  let bitLen := msg.length * 8
  let padZeros := (64 + 56 - (msg.length + 1) % 64) % 64
  msg ++ [128] ++ List.replicate padZeros 0 ++ beBytes 8 bitLen

/-- Split a byte list into 64-byte blocks (fuelled structural recursion;
the fuel `l.length` always suffices). -/
def toBlocksAux : Nat → List Nat → List (List Nat)
  | 0, _ => []
  | _ + 1, [] => []
  | fuel + 1, l => l.take 64 :: toBlocksAux fuel (l.drop 64)

def toBlocks (l : List Nat) : List (List Nat) := toBlocksAux l.length l

/-- Big-endian 32-bit words of a 64-byte block. -/
def blockWordsAux : Nat → List Nat → List Nat
  | 0, _ => []
  | k + 1, a :: b :: c :: d :: rest => (((a * 256 + b) * 256 + c) * 256 + d) :: blockWordsAux k rest
  | _ + 1, _ => []

def blockWords (block : List Nat) : List Nat := blockWordsAux 16 block

/-- Message-schedule extension: keeps the words seen so far in reverse
order, adding `rotl 1 (w16 xor w14 xor w8 xor w3)` each step. -/
def extendWordsAux : Nat → List Nat → List Nat
  | 0, revWs => revWs
  | k + 1, revWs =>
      let nw := rotl 1 ((((revWs.getD 2 0) ^^^ (revWs.getD 7 0)) ^^^ (revWs.getD 13 0)) ^^^ (revWs.getD 15 0))
      extendWordsAux k (nw :: revWs)

def extendWords (ws : List Nat) : List Nat := (extendWordsAux 64 ws.reverse).reverse

/-- One SHA-1 round: state `(a,b,c,d,e)`, round index `i`, word `w`. -/
def sha1round (st : Nat × Nat × Nat × Nat × Nat) (iw : Nat × Nat) : Nat × Nat × Nat × Nat × Nat :=
  let (a, b, c, d, e) := st
  let (i, w) := iw
  let f :=
    if i < 20 then (b &&& c) ||| ((w32 - 1 - b) &&& d)
    else if i < 40 then (b ^^^ c) ^^^ d
    else if i < 60 then ((b &&& c) ||| (b &&& d)) ||| (c &&& d)
    else (b ^^^ c) ^^^ d
  let k :=
    if i < 20 then 1518500249
    else if i < 40 then 1859775393
    else if i < 60 then 2400959708
    else 3395469782
  let temp := (rotl 5 a + f + e + k + w) % w32
  (temp, a, rotl 30 b, c, d)

/-- Compress one 64-byte block into the running state `(h0,...,h4)`. -/
def sha1block (h : Nat × Nat × Nat × Nat × Nat) (block : List Nat) :
    Nat × Nat × Nat × Nat × Nat :=
  let (h0, h1, h2, h3, h4) := h
  let ws := extendWords (blockWords block)
  let idx := (List.range 80).zip ws
  let (a, b, c, d, e) := idx.foldl sha1round (h0, h1, h2, h3, h4)
  ((h0 + a) % w32, (h1 + b) % w32, (h2 + c) % w32, (h3 + d) % w32, (h4 + e) % w32)

/-- Full SHA-1 state after hashing `msg`. -/
def sha1state (msg : List Nat) : Nat × Nat × Nat × Nat × Nat :=
  (toBlocks (sha1pad msg)).foldl sha1block
    (1732584193, 4023233417, 2562383102, 271733878, 3285377520)

def hexDigitChar (n : Nat) : Char :=
  if n < 10 then Char.ofNat (48 + n) else Char.ofNat (87 + n)

/-- `width` lowercase hex digits of `n`, most significant first. -/
def toHexAux : Nat → Nat → List Char
  | 0, _ => []
  | width + 1, n => toHexAux width (n / 16) ++ [hexDigitChar (n % 16)]

def toHex (width n : Nat) : String := ⟨toHexAux width n⟩

/-- `hashlib.sha1(msg).hexdigest()`: 40 lowercase hex characters. -/
def sha1hexdigest (msg : List Nat) : String :=
  let (h0, h1, h2, h3, h4) := sha1state msg
  toHex 8 h0 ++ toHex 8 h1 ++ toHex 8 h2 ++ toHex 8 h3 ++ toHex 8 h4

/-- `hashlib.sha1(filename.encode("utf-8")).hexdigest()[:8]` from
`safe_dest_path`. -/
def sha1_8 (s : String) : String := strTake (sha1hexdigest (utf8Encode s)) 8

/-! ## `safe_dest_path` (source.py lines 18-58) -/

def MAX_PATH : Nat := 240

def MAX_COMPONENT : Nat := 200

/-- Result of `safe_dest_path`: the `(dest_path, new_filename, was_shortened)`
tuple. -/
structure SafeDest where
  dest_path : String
  new_name : String
  was_shortened : Bool
deriving DecidableEq, Repr

/-- `safe_dest_path(base_dir, filename)` from source.py.  `os.path.abspath`
is modelled as the identity: `base_dir` is taken to be an absolute,
normalized directory path (on which `abspath` is the identity).  Python's
`max(1, _MAX_COMPONENT - len(ext) - 9)` and `max(1, keep - extra)` compute
the same values over `Nat` truncated subtraction as over `Int`, because the
outer `max 1 _` sends every non-positive value to 1. -/
def safe_dest_path (base_dir filename : String) : SafeDest :=
  let ne := splitext filename
  let name := ne.1
  let ext := ne.2
  let candidate := pathJoin base_dir filename
  if (basename filename).length ≤ MAX_COMPONENT ∧ candidate.length ≤ MAX_PATH then
    ⟨candidate, filename, false⟩
  else
    let h := sha1_8 filename
    let keep := max 1 (MAX_COMPONENT - ext.length - 9)
    let new_name := strTake name keep ++ "-" ++ h ++ ext
    let dest := pathJoin base_dir new_name
    if dest.length > MAX_PATH then
      let extra := dest.length - MAX_PATH
      let new_keep := max 1 (keep - extra)
      let nn2 := strTake name new_keep ++ "-" ++ h ++ ext
      ⟨pathJoin base_dir nn2, nn2, true⟩
    else
      ⟨dest, new_name, true⟩

/-! ## File data model

A file on disk is either unreadable (any decode failure: corrupt data,
unsupported format, zero bytes) or decodes to a raster with the given
dimensions.  This is exactly the information `source.py` consumes from PIL:
`img.size` after a successful `Image.open`, or an exception. -/

inductive FileData where
  | unreadable
  | image (w h : Nat)
deriving DecidableEq, Repr

/-- A directory entry of the source folder: a filename plus its content. -/
structure SrcFile where
  name : String
  data : FileData
deriving DecidableEq, Repr

/-- What the pipeline writes into the output directory. -/
inductive Entry where
  | copyOf (d : FileData)
  | squaredOf (w h : Nat)
  | csvFile (content : String)
deriving DecidableEq, Repr

/-- One line-oriented diagnostic, one constructor per `print` in the
per-file paths of `process_images_locally` / `is_image_square`. -/
inductive LogEvent where
  | warnCheck (n : String)
  | failedFile (n : String)
  | renamedLong (n : String)
  | copiedSquare (n : String)
  | processedFile (n : String)
  | sweepCopied (n : String)
  | verifyCopied (n : String)
  | failedMove (n : String)
  | wroteMap
deriving DecidableEq, Repr

/-- The extension allow-list of source.py (lines 92, 160, 190). -/
def imageExts : List String :=
  [".jpg", ".jpeg", ".png", ".gif", ".bmp", ".tiff", ".webp", ".jfif"]

/-- `filename.lower().endswith(('.jpg', ...))`. -/
def hasImageExt (filename : String) : Bool :=
  imageExts.any (fun e => endsWithStr (strLower filename) e)

/-- `is_image_square(image_path)` (source.py lines 66-73), applied to the
content `d` found at `image_path`.  Returns the Boolean answer together
with the warning it prints on a decode failure; a decode failure yields
`false`. -/
def is_image_square (image_path : String) (d : FileData) : Bool × List LogEvent :=
  match d with
  | .image w h => (w == h, [])
  | .unreadable => (false, [.warnCheck (basename image_path)])

/-! ## The squaring transform (source.py lines 131-135), pixel level -/

abbrev Color := Nat × Nat × Nat

def white : Color := (255, 255, 255)

/-- A decoded raster: dimensions plus a pixel function. -/
structure Raster where
  width : Nat
  height : Nat
  pix : Nat → Nat → Color

/-- PIL `Image.new("RGB", (w, h), fill)`. -/
def imageNew (w h : Nat) (fill : Color) : Raster :=
  ⟨w, h, fun _ _ => fill⟩

/-- PIL `canvas.paste(img, (ox, oy))` for a paste box that lies inside the
canvas (as it does in `process_images_locally`). -/
def pasteAt (canvas img : Raster) (ox oy : Nat) : Raster :=
  ⟨canvas.width, canvas.height, fun x y =>
    if ox ≤ x ∧ x < ox + img.width ∧ oy ≤ y ∧ y < oy + img.height then
      img.pix (x - ox) (y - oy)
    else
      canvas.pix x y⟩

/-- Lines 132-135: `max_dim = max(width, height)`; a white `max_dim ×
max_dim` RGB canvas; paste at `((max_dim - width) // 2, (max_dim - height)
// 2)`. -/
def squareCanvas (img : Raster) : Raster :=
  let max_dim := max img.width img.height
  pasteAt (imageNew max_dim max_dim white) img
    ((max_dim - img.width) / 2) ((max_dim - img.height) / 2)

/-! ## Output encoding (source.py lines 138-143) -/

inductive ImgFormat where
  | jpeg
  | png
  | gif
  | bmp
  | tiff
  | webp
deriving DecidableEq, Repr

/-- Models PIL's extension registry restricted to the pipeline's allow-list
(external library behavior: `Image.save` infers the format from the file
extension; `.jfif`, like `.jpg` and `.jpeg`, is registered to the JPEG
plugin). -/
def extFormat : String → Option ImgFormat
  | ".jpg" => some .jpeg
  | ".jpeg" => some .jpeg
  | ".jfif" => some .jpeg
  | ".png" => some .png
  | ".gif" => some .gif
  | ".bmp" => some .bmp
  | ".tiff" => some .tiff
  | ".webp" => some .webp
  | _ => none

/-- Whether a format's encoder is lossy (JPEG always; PIL writes WebP lossy
by default). -/
def lossyFormat : ImgFormat → Bool
  | .jpeg => true
  | .webp => true
  | _ => false

/-- One `new_img.save(...)` invocation: the explicitly passed or
extension-inferred format, and the explicitly passed quality (none means
the encoder default). -/
structure SaveCall where
  fmt : Option ImgFormat
  quality : Option Nat
deriving DecidableEq, Repr

/-- Lines 139-143: `ext = os.path.splitext(filename)[1].lower()`; for
`.jpg`/`.jpeg` save as `"JPEG", quality=95`, otherwise a bare `save` whose
format PIL infers from the extension. -/
def encodeCall (filename : String) : SaveCall :=
  let ext := strLower (splitext filename).2
  if ext = ".jpg" ∨ ext = ".jpeg" then ⟨some .jpeg, some 95⟩
  else ⟨extFormat ext, none⟩

/-! ## The batch pipeline `process_images_locally` (source.py lines 75-228)

The model filesystem: the source directory listing is a `List SrcFile`
(the `squared_results` subdirectory the pipeline creates inside the source
directory never passes the extension filter, so it is omitted from the
listing), the final output directory and the temp output directory are
association lists from filename to `Entry`.  I/O primitives (`copy2`,
`move`, `open(...,"w")`) are modelled as succeeding; decode failures — the
error source the spec discusses — are data (`FileData.unreadable`). -/

abbrev OutDir := List (String × Entry)

/-- `os.path.exists(os.path.join(final_output, n))`, at the name level. -/
def memName (out : OutDir) (n : String) : Bool :=
  out.any (fun p => p.1 == n)

/-- Mutable state threaded through the pipeline stages. -/
structure RunState where
  out : OutDir
  tempOut : OutDir
  processed : Nat
  squareCopied : Nat
  movedCount : Nat
  renamedMap : List (String × String)
  log : List LogEvent
deriving DecidableEq, Repr

/-- Loop body of stage 2 (lines 111-153): skip if the resolved destination
already exists; square images are copied to the final output; non-square
images are squared, saved into the temp output under the original name and
immediately moved to the resolved destination; any decode failure inside
the `try` is caught and logged. -/
def mainStep (final_output : String) (f : SrcFile) (st : RunState) : RunState :=
  let existing := safe_dest_path final_output f.name
  if memName st.out existing.new_name then st
  else
    let check := is_image_square (pathJoin "to_process" f.name) f.data
    if check.1 then
      let r := safe_dest_path final_output f.name
      { st with
        out := (r.new_name, .copyOf f.data) :: st.out
        squareCopied := st.squareCopied + 1
        renamedMap := st.renamedMap ++ (if r.was_shortened then [(f.name, r.new_name)] else [])
        log := st.log ++ check.2 ++
          (if r.was_shortened then [.renamedLong r.new_name] else []) ++
          [.copiedSquare (if r.was_shortened then r.new_name else f.name)] }
    else
      match f.data with
      | .unreadable =>
          { st with log := st.log ++ check.2 ++ [.failedFile f.name] }
      | .image w h =>
          let m := max w h
          let st1 := { st with tempOut := (f.name, Entry.squaredOf m m) :: st.tempOut }
          let r := safe_dest_path final_output f.name
          { st1 with
            tempOut := st1.tempOut.eraseP (fun q => q.1 == f.name)
            out := (r.new_name, Entry.squaredOf m m) :: st1.out
            processed := st1.processed + 1
            renamedMap := st1.renamedMap ++ (if r.was_shortened then [(f.name, r.new_name)] else [])
            log := st1.log ++ check.2 ++
              (if r.was_shortened then [.renamedLong r.new_name] else []) ++
              [.processedFile (if r.was_shortened then r.new_name else f.name)] }

/-- Loop body of stage 3, the final sweep (lines 156-171): for any eligible
source entry whose resolved destination is missing, copy it if it is
square. -/
def sweepStep (final_output : String) (f : SrcFile) (st : RunState) : RunState :=
  let r := safe_dest_path final_output f.name
  if hasImageExt f.name ∧ memName st.out r.new_name = false then
    let check := is_image_square f.name f.data
    if check.1 then
      { st with
        out := (r.new_name, .copyOf f.data) :: st.out
        squareCopied := st.squareCopied + 1
        renamedMap := st.renamedMap ++ (if r.was_shortened then [(f.name, r.new_name)] else [])
        log := st.log ++ check.2 ++
          (if r.was_shortened then [.renamedLong r.new_name] else []) ++
          [.sweepCopied (if r.was_shortened then r.new_name else f.name)] }
    else
      { st with log := st.log ++ check.2 }
  else st

/-- Loop body of stage 4 (lines 175-185): move each file left in the temp
output into the final output under its resolved name. -/
def moveStep (final_output : String) (st : RunState) (p : String × Entry) : RunState :=
  let r := safe_dest_path final_output p.1
  { st with
    tempOut := st.tempOut.eraseP (fun q => q.1 == p.1)
    out := (r.new_name, p.2) :: st.out
    movedCount := st.movedCount + 1
    renamedMap := st.renamedMap ++ (if r.was_shortened then [(p.1, r.new_name)] else [])
    log := st.log ++ (if r.was_shortened then [.renamedLong r.new_name] else []) }

/-- Loop body of stage 5, verification (lines 189-204): for every eligible
source entry, re-classify; copy it if it is square and its resolved
destination is still missing (`is_image_square` runs, and may warn, before
the existence test). -/
def verifyStep (final_output : String) (f : SrcFile) (st : RunState) : RunState :=
  if hasImageExt f.name then
    let r := safe_dest_path final_output f.name
    let check := is_image_square f.name f.data
    if check.1 ∧ memName st.out r.new_name = false then
      { st with
        out := (r.new_name, .copyOf f.data) :: st.out
        squareCopied := st.squareCopied + 1
        renamedMap := st.renamedMap ++ (if r.was_shortened then [(f.name, r.new_name)] else [])
        log := st.log ++ check.2 ++
          (if r.was_shortened then [.renamedLong r.new_name] else []) ++
          [.verifyCopied (if r.was_shortened then r.new_name else f.name)] }
    else
      { st with log := st.log ++ check.2 }
  else st

/-- Contents of `filename_mapping.csv` (lines 210-213): the header line
followed by one `f"{old},{new}\n"` per recorded pair, written in order with
no quoting or escaping. -/
def csvContent (m : List (String × String)) : String :=
  m.foldl (fun acc p => acc ++ p.1 ++ "," ++ p.2 ++ "\n")
    "original_filename,new_filename\n"

/-- Lines 206-216: write the rename map into the final output directory,
only if any names were shortened (`open(..., "w")` truncates a pre-existing
file of the same name). -/
def writeRenameMap (st : RunState) : RunState :=
  if st.renamedMap.isEmpty then st
  else
    { st with
      out := ("filename_mapping.csv", .csvFile (csvContent st.renamedMap)) ::
        st.out.filter (fun p => !(p.1 == "filename_mapping.csv"))
      log := st.log ++ [.wroteMap] }

/-- The summary string of lines 221-228. -/
def mkSummary (processed squareCopied movedCount total : Nat) (final_output : String) : String :=
  "Final Results:\n- Processed " ++ toString processed ++
  " non-square images\n- Copied " ++ toString squareCopied ++
  " square images\n- Moved " ++ toString movedCount ++
  " processed images\n- Total in output: " ++ toString total ++
  " files\n- Output folder: " ++ final_output

/-- Result of a whole run: the `(success, message)` pair returned to the
GUI shell, plus the observable state the claims talk about. -/
structure RunResult where
  success : Bool
  message : String
  out : OutDir
  processed : Nat
  squareCopied : Nat
  movedCount : Nat
  renamedMap : List (String × String)
  log : List LogEvent
deriving DecidableEq, Repr

/-- `process_images_locally(original_dir)` (source.py lines 75-228) over
the model filesystem: `src` is the listing of `original_dir`, `out0` the
prior contents of `<original_dir>/squared_results`.  The temp staging tree
is created fresh (time-stamped name) and removed at the end; the returned
state omits it. -/
def process_images_locally (original_dir : String) (src : List SrcFile)
    (out0 : OutDir) : RunResult :=
  let final_output := pathJoin original_dir "squared_results"
  let all_images := src.filter (fun f => hasImageExt f.name)
  if all_images.isEmpty then
    { success := false, message := "No valid images found", out := out0
      processed := 0, squareCopied := 0, movedCount := 0, renamedMap := [], log := [] }
  else
    let st0 : RunState := ⟨out0, [], 0, 0, 0, [], []⟩
    let st1 := all_images.foldl (fun st f => mainStep final_output f st) st0
    let st2 := src.foldl (fun st f => sweepStep final_output f st) st1
    let st3 := st2.tempOut.foldl (moveStep final_output) st2
    let st4 := src.foldl (fun st f => verifyStep final_output f st) st3
    let st5 := writeRenameMap st4
    { success := true
      message := mkSummary st5.processed st5.squareCopied st5.movedCount
        st5.out.length final_output
      out := st5.out
      processed := st5.processed
      squareCopied := st5.squareCopied
      movedCount := st5.movedCount
      renamedMap := st5.renamedMap
      log := st5.log }

/-! ## Invariants and concrete inputs -/

/-- Coverage: every eligible, decodable source file is represented in the
output directory under its resolved destination name. -/
def Covered (b : String) (src : List SrcFile) (out : OutDir) : Prop :=
  ∀ f ∈ src, hasImageExt f.name = true → f.data ≠ .unreadable →
    memName out (safe_dest_path b f.name).new_name = true

/-- A run starting from output contents `O` that changes nothing:
state fields other than the log coincide with the initial state. -/
def NoWrite (O : OutDir) (st : RunState) : Prop :=
  st.out = O ∧ st.tempOut = [] ∧ st.processed = 0 ∧ st.squareCopied = 0 ∧
  st.movedCount = 0 ∧ st.renamedMap = []

/-- Rename-record soundness: every recorded original filename already has
its resolved destination present in the output (it was just written), and
no original filename is recorded twice. -/
def RenBound (b : String) (st : RunState) : Prop :=
  (∀ p ∈ st.renamedMap, memName st.out (safe_dest_path b p.1).new_name = true) ∧
  (st.renamedMap.map Prod.fst).Nodup

/-- Spec-side form of the rename-map rows: the literal concatenation
`original ++ "," ++ new ++ "\n"` per recorded pair, in order. -/
def rowsConcat : List (String × String) → String
  | [] => ""
  | p :: l => p.1 ++ "," ++ p.2 ++ "\n" ++ rowsConcat l

/-- A 220-character base directory (a deep but legal output directory). -/
def deepBase : String := ⟨'/' :: List.replicate 219 'd'⟩

/-- A 54-character filename whose stem is shorter than the per-component
allowance. -/
def longStemName : String := (⟨List.replicate 50 'n'⟩ : String) ++ ".png"

/-- A 254-character filename (component limit exceeded). -/
def longUnreadableName : String := (⟨List.replicate 250 'a'⟩ : String) ++ ".png"

/-- A 254-character filename for a decodable square image. -/
def longSquareName : String := (⟨List.replicate 250 'b'⟩ : String) ++ ".png"

/-! ## Generic fold lemmas -/

theorem foldl_preserve {α σ : Type} {P : σ → Prop} {step : σ → α → σ} :
    ∀ (l : List α) (s : σ), (∀ a ∈ l, ∀ t, P t → P (step t a)) → P s → P (l.foldl step s) := by
  intro l
  induction l with
  | nil => intro s _ hs; exact hs
  | cons a l ih =>
      intro s h hs
      exact ih (step s a) (fun x hx t ht => h x (List.mem_cons_of_mem a hx) t ht)
        (h a (List.mem_cons_self a l) s hs)

theorem foldl_establish {α σ : Type} {Q : α → σ → Prop} {step : σ → α → σ}
    (hmono : ∀ a t a', Q a' t → Q a' (step t a))
    (hself : ∀ a t, Q a (step t a)) :
    ∀ (l : List α) (s : σ) (a : α), a ∈ l → Q a (l.foldl step s) := by
  intro l
  induction l with
  | nil => intro s a ha; cases ha
  | cons b l ih =>
      intro s a ha
      rcases List.mem_cons.mp ha with rfl | ha
      · exact foldl_preserve l (step s a) (fun x _ t ht => hmono x t a ht) (hself a s)
      · exact ih (step s b) a ha

/-! ## String lemmas -/

theorem strData_append (s t : String) : (s ++ t).data = s.data ++ t.data := by
  obtain ⟨a⟩ := s
  obtain ⟨b⟩ := t
  rfl

theorem basenameAux_sep (l1 l2 : List Char) :
    ∀ acc, basenameAux acc (l1 ++ '/' :: l2) = basenameAux [] l2 := by
  induction l1 with
  | nil => intro acc; simp [basenameAux]
  | cons c cs ih =>
      intro acc
      by_cases hc : c = '/' <;> simp [basenameAux, hc, ih]

theorem basename_pathJoin (d n : String) : basename (pathJoin d n) = basename n := by
  by_cases hd : endsWithStr d "/" = true
  · have hsuf : ['/'] <:+ d.data := by
      have := hd
      simp only [endsWithStr] at this
      exact List.isSuffixOf_iff_suffix.mp this
    obtain ⟨l1, hl⟩ := hsuf
    simp only [pathJoin, hd, if_true, basename, strData_append, ← hl]
    rw [List.append_assoc]
    rw [show ((['/'] : List Char) ++ n.data) = '/' :: n.data from rfl]
    rw [basenameAux_sep]
  · simp only [Bool.not_eq_true] at hd
    simp only [pathJoin, hd, Bool.false_eq_true, if_false, basename, strData_append]
    rw [show (d.data ++ "/".data ++ n.data) = d.data ++ '/' :: n.data by simp]
    rw [basenameAux_sep]

/-! ## Membership in the output directory -/

theorem memName_cons {n m : String} {e : Entry} {out : OutDir} :
    memName ((m, e) :: out) n = ((m == n) || memName out n) := by
  simp [memName]

theorem memName_cons_self {n : String} {e : Entry} {out : OutDir} :
    memName ((n, e) :: out) n = true := by
  simp [memName]

theorem memName_cons_of_mem {n m : String} {e : Entry} {out : OutDir}
    (h : memName out n = true) : memName ((m, e) :: out) n = true := by
  simp [memName_cons, h]

/-! ## Per-step lemmas for the pipeline stages -/

theorem mainStep_mono {b : String} {f : SrcFile} {st : RunState} {n : String}
    (h : memName st.out n = true) : memName (mainStep b f st).out n = true := by
  obtain ⟨nm, d⟩ := f
  cases d with
  | unreadable =>
      by_cases hm : memName st.out (safe_dest_path b nm).new_name = true
      · simp [mainStep, hm, h]
      · simp only [Bool.not_eq_true] at hm
        simp [mainStep, hm, is_image_square, h]
  | image w hh =>
      by_cases hm : memName st.out (safe_dest_path b nm).new_name = true
      · simp [mainStep, hm, h]
      · simp only [Bool.not_eq_true] at hm
        by_cases hw : (w == hh) = true
        · simp [mainStep, hm, is_image_square, hw, memName_cons_of_mem h]
        · simp only [Bool.not_eq_true] at hw
          simp [mainStep, hm, is_image_square, hw, memName_cons_of_mem h]

theorem mainStep_self {b : String} {f : SrcFile} {st : RunState}
    (hf : f.data ≠ .unreadable) :
    memName (mainStep b f st).out (safe_dest_path b f.name).new_name = true := by
  obtain ⟨nm, d⟩ := f
  cases d with
  | unreadable => exact absurd rfl hf
  | image w hh =>
      by_cases hm : memName st.out (safe_dest_path b nm).new_name = true
      · simp [mainStep, hm]
      · simp only [Bool.not_eq_true] at hm
        by_cases hw : (w == hh) = true
        · simp [mainStep, hm, is_image_square, hw, memName_cons_self]
        · simp only [Bool.not_eq_true] at hw
          simp [mainStep, hm, is_image_square, hw, memName_cons_self]

theorem mainStep_noop {b : String} {f : SrcFile} {st : RunState}
    (h : f.data ≠ .unreadable → memName st.out (safe_dest_path b f.name).new_name = true) :
    (mainStep b f st).out = st.out ∧ (mainStep b f st).tempOut = st.tempOut ∧
    (mainStep b f st).processed = st.processed ∧
    (mainStep b f st).squareCopied = st.squareCopied ∧
    (mainStep b f st).movedCount = st.movedCount ∧
    (mainStep b f st).renamedMap = st.renamedMap := by
  obtain ⟨nm, d⟩ := f
  cases d with
  | unreadable =>
      by_cases hm : memName st.out (safe_dest_path b nm).new_name = true
      · simp [mainStep, hm]
      · simp only [Bool.not_eq_true] at hm
        simp [mainStep, hm, is_image_square]
  | image w hh =>
      have hm := h (by simp)
      simp [mainStep, hm]

theorem mainStep_tempOut {b : String} {f : SrcFile} {st : RunState}
    (h : st.tempOut = []) : (mainStep b f st).tempOut = [] := by
  obtain ⟨nm, d⟩ := f
  cases d with
  | unreadable =>
      by_cases hm : memName st.out (safe_dest_path b nm).new_name = true
      · simp [mainStep, hm, h]
      · simp only [Bool.not_eq_true] at hm
        simp [mainStep, hm, is_image_square, h]
  | image w hh =>
      by_cases hm : memName st.out (safe_dest_path b nm).new_name = true
      · simp [mainStep, hm, h]
      · simp only [Bool.not_eq_true] at hm
        by_cases hw : (w == hh) = true
        · simp [mainStep, hm, is_image_square, hw, h]
        · simp only [Bool.not_eq_true] at hw
          simp [mainStep, hm, is_image_square, hw, h, List.eraseP]

theorem sweepStep_mono {b : String} {f : SrcFile} {st : RunState} {n : String}
    (h : memName st.out n = true) : memName (sweepStep b f st).out n = true := by
  simp only [sweepStep]
  split
  · split
    · exact memName_cons_of_mem h
    · exact h
  · exact h

theorem sweepStep_noop {b : String} {f : SrcFile} {st : RunState}
    (h : hasImageExt f.name = true → f.data ≠ .unreadable →
      memName st.out (safe_dest_path b f.name).new_name = true) :
    (sweepStep b f st).out = st.out ∧ (sweepStep b f st).tempOut = st.tempOut ∧
    (sweepStep b f st).processed = st.processed ∧
    (sweepStep b f st).squareCopied = st.squareCopied ∧
    (sweepStep b f st).movedCount = st.movedCount ∧
    (sweepStep b f st).renamedMap = st.renamedMap := by
  obtain ⟨nm, d⟩ := f
  by_cases he : hasImageExt nm = true
  · cases d with
    | unreadable =>
        by_cases hm : memName st.out (safe_dest_path b nm).new_name = false
        · simp [sweepStep, he, hm, is_image_square]
        · simp only [Bool.not_eq_false] at hm
          simp [sweepStep, he, hm]
    | image w hh =>
        have hm := h he (by simp)
        simp [sweepStep, he, hm]
  · simp only [Bool.not_eq_true] at he
    simp [sweepStep, he]

theorem verifyStep_mono {b : String} {f : SrcFile} {st : RunState} {n : String}
    (h : memName st.out n = true) : memName (verifyStep b f st).out n = true := by
  simp only [verifyStep]
  split
  · split
    · exact memName_cons_of_mem h
    · exact h
  · exact h

theorem verifyStep_noop {b : String} {f : SrcFile} {st : RunState}
    (h : hasImageExt f.name = true → f.data ≠ .unreadable →
      memName st.out (safe_dest_path b f.name).new_name = true) :
    (verifyStep b f st).out = st.out ∧ (verifyStep b f st).tempOut = st.tempOut ∧
    (verifyStep b f st).processed = st.processed ∧
    (verifyStep b f st).squareCopied = st.squareCopied ∧
    (verifyStep b f st).movedCount = st.movedCount ∧
    (verifyStep b f st).renamedMap = st.renamedMap := by
  obtain ⟨nm, d⟩ := f
  by_cases he : hasImageExt nm = true
  · cases d with
    | unreadable => simp [verifyStep, he, is_image_square]
    | image w hh =>
        have hm := h he (by simp)
        simp [verifyStep, he, hm, is_image_square]
  · simp only [Bool.not_eq_true] at he
    simp [verifyStep, he]

theorem writeRenameMap_mono {st : RunState} {n : String}
    (h : memName st.out n = true) : memName (writeRenameMap st).out n = true := by
  simp only [writeRenameMap]
  split
  · exact h
  · by_cases hc : n = "filename_mapping.csv"
    · subst hc; exact memName_cons_self
    · have hmem :
          memName (st.out.filter (fun p => !(p.1 == "filename_mapping.csv"))) n = true := by
        simp only [memName, List.any_eq_true] at h ⊢
        obtain ⟨x, hx, hxn⟩ := h
        refine ⟨x, List.mem_filter.mpr ⟨hx, ?_⟩, hxn⟩
        simp only [beq_iff_eq] at hxn
        simp [hxn, hc]
      exact memName_cons_of_mem hmem

theorem moveStep_mono {b : String} {st : RunState} {p : String × Entry} {n : String}
    (h : memName st.out n = true) : memName (moveStep b st p).out n = true := by
  simp only [moveStep]
  exact memName_cons_of_mem h

/-! ## Run-level invariants -/

/-- After a run, coverage holds: stage 2 establishes it for decodable
eligible files and the later stages never remove output entries. -/
theorem run_covered (dir : String) (src : List SrcFile) (out0 : OutDir) :
    Covered (pathJoin dir "squared_results") src
      (process_images_locally dir src out0).out := by
  by_cases hempty : (src.filter (fun f => hasImageExt f.name)).isEmpty = true
  · intro f hf he _
    exfalso
    rw [List.isEmpty_iff] at hempty
    have hmem : f ∈ src.filter (fun f => hasImageExt f.name) :=
      List.mem_filter.mpr ⟨hf, he⟩
    rw [hempty] at hmem
    cases hmem
  · simp only [Bool.not_eq_true] at hempty
    intro f hf he hr
    simp only [process_images_locally, hempty, Bool.false_eq_true, if_false]
    refine writeRenameMap_mono ?_
    refine foldl_preserve
      (P := fun (st : RunState) => memName st.out
        (safe_dest_path (pathJoin dir "squared_results") f.name).new_name = true)
      _ _ (fun a _ t ht => verifyStep_mono ht) ?_
    refine foldl_preserve
      (P := fun (st : RunState) => memName st.out
        (safe_dest_path (pathJoin dir "squared_results") f.name).new_name = true)
      _ _ (fun a _ t ht => moveStep_mono ht) ?_
    refine foldl_preserve
      (P := fun (st : RunState) => memName st.out
        (safe_dest_path (pathJoin dir "squared_results") f.name).new_name = true)
      _ _ (fun a _ t ht => sweepStep_mono ht) ?_
    exact foldl_establish
      (Q := fun (a : SrcFile) (t : RunState) => a.data ≠ .unreadable →
        memName t.out (safe_dest_path (pathJoin dir "squared_results") a.name).new_name = true)
      (fun a t a' q hrd => mainStep_mono (q hrd))
      (fun a t hrd => mainStep_self hrd)
      (src.filter (fun f => hasImageExt f.name)) _ f
      (List.mem_filter.mpr ⟨hf, he⟩) hr

/-- The five stages change nothing when every eligible decodable source
file is already covered by the initial output contents. -/
theorem stages_noop (b : String) (src l : List SrcFile) (O : OutDir)
    (hcov : Covered b src O)
    (hl : ∀ f ∈ l, f ∈ src ∧ hasImageExt f.name = true)
    (st1 st2 st3 st4 st5 : RunState)
    (h1 : st1 = l.foldl (fun st f => mainStep b f st) ⟨O, [], 0, 0, 0, [], []⟩)
    (h2 : st2 = src.foldl (fun st f => sweepStep b f st) st1)
    (h3 : st3 = st2.tempOut.foldl (moveStep b) st2)
    (h4 : st4 = src.foldl (fun st f => verifyStep b f st) st3)
    (h5 : st5 = writeRenameMap st4) :
    st5.out = O ∧ st5.processed = 0 ∧ st5.squareCopied = 0 ∧
    st5.movedCount = 0 ∧ st5.renamedMap = [] := by
  have p1 : NoWrite O st1 := by
    rw [h1]
    refine foldl_preserve (P := NoWrite O) l _ (fun f hf t ht => ?_) ⟨rfl, rfl, rfl, rfl, rfl, rfl⟩
    obtain ⟨ho, htmp, hp, hs, hmv, hrm⟩ := ht
    have h6 := @mainStep_noop b f t
      (fun hrd => by rw [ho]; exact hcov f (hl f hf).1 (hl f hf).2 hrd)
    exact ⟨h6.1.trans ho, h6.2.1.trans htmp, h6.2.2.1.trans hp,
      h6.2.2.2.1.trans hs, h6.2.2.2.2.1.trans hmv, h6.2.2.2.2.2.trans hrm⟩
  have p2 : NoWrite O st2 := by
    rw [h2]
    refine foldl_preserve (P := NoWrite O) src st1 (fun f hf t ht => ?_) p1
    obtain ⟨ho, htmp, hp, hs, hmv, hrm⟩ := ht
    have h6 := @sweepStep_noop b f t
      (fun he hrd => by rw [ho]; exact hcov f hf he hrd)
    exact ⟨h6.1.trans ho, h6.2.1.trans htmp, h6.2.2.1.trans hp,
      h6.2.2.2.1.trans hs, h6.2.2.2.2.1.trans hmv, h6.2.2.2.2.2.trans hrm⟩
  have p3 : NoWrite O st3 := by
    rw [h3, p2.2.1]
    exact p2
  have p4 : NoWrite O st4 := by
    rw [h4]
    refine foldl_preserve (P := NoWrite O) src st3 (fun f hf t ht => ?_) p3
    obtain ⟨ho, htmp, hp, hs, hmv, hrm⟩ := ht
    have h6 := @verifyStep_noop b f t
      (fun he hrd => by rw [ho]; exact hcov f hf he hrd)
    exact ⟨h6.1.trans ho, h6.2.1.trans htmp, h6.2.2.1.trans hp,
      h6.2.2.2.1.trans hs, h6.2.2.2.2.1.trans hmv, h6.2.2.2.2.2.trans hrm⟩
  have hwr : writeRenameMap st4 = st4 := by
    simp [writeRenameMap, p4.2.2.2.2.2]
  have p5 : NoWrite O st5 := by rw [h5, hwr]; exact p4
  exact ⟨p5.1, p5.2.2.1, p5.2.2.2.1, p5.2.2.2.2.1, p5.2.2.2.2.2⟩

/-- A run over an already-covering output directory performs no new work. -/
theorem run_noop (dir : String) (src : List SrcFile) (O : OutDir)
    (hcov : Covered (pathJoin dir "squared_results") src O) :
    (process_images_locally dir src O).out = O ∧
    (process_images_locally dir src O).processed = 0 ∧
    (process_images_locally dir src O).squareCopied = 0 ∧
    (process_images_locally dir src O).movedCount = 0 ∧
    (process_images_locally dir src O).renamedMap = [] := by
  by_cases hempty : (src.filter (fun f => hasImageExt f.name)).isEmpty = true
  · simp [process_images_locally, hempty]
  · simp only [Bool.not_eq_true] at hempty
    simp only [process_images_locally, hempty, Bool.false_eq_true, if_false]
    exact stages_noop (pathJoin dir "squared_results") src
      (src.filter (fun f => hasImageExt f.name)) O hcov
      (fun f hf => ⟨(List.mem_filter.mp hf).1, (List.mem_filter.mp hf).2⟩)
      _ _ _ _ _ rfl rfl rfl rfl rfl

/-! ## Claim C1 -/

/-- C1: Idempotence of the batch pipeline.  Running
`process_images_locally` a second time on the same source listing and the
output directory produced by the first run yields exactly the same output
directory contents (hence the same set of destination names and no
duplicated entries), because every staged file's destination is resolved
through `safe_dest_path` and skipped when it already exists; the second
run's processed/copied/moved counters and rename records are all zero. -/
theorem C1_pipeline_idempotent (dir : String) (src : List SrcFile) (out0 : OutDir) :
    (process_images_locally dir src (process_images_locally dir src out0).out).out =
      (process_images_locally dir src out0).out ∧
    (process_images_locally dir src (process_images_locally dir src out0).out).processed = 0 ∧
    (process_images_locally dir src (process_images_locally dir src out0).out).squareCopied = 0 ∧
    (process_images_locally dir src (process_images_locally dir src out0).out).movedCount = 0 ∧
    (process_images_locally dir src (process_images_locally dir src out0).out).renamedMap = [] :=
  run_noop dir src (process_images_locally dir src out0).out (run_covered dir src out0)

/-! ## Claim C5 -/

/-- C5: Determinism of path resolution.  `safe_dest_path` is a pure
function of its two string arguments — in the embedding it consumes no
state — so two calls with equal `(base_dir, filename)` arguments return
the same `(dest_path, new_name, was_shortened)` tuple. -/
theorem C5_safe_dest_path_deterministic (b1 f1 b2 f2 : String)
    (hb : b1 = b2) (hf : f1 = f2) :
    safe_dest_path b1 f1 = safe_dest_path b2 f2 := by
  rw [hb, hf]

/-- Witness for C5 at a concrete `(base_dir, filename)` pair. -/
theorem C5_witness :
    "/out" = "/out" ∧ "a.png" = "a.png" ∧
    safe_dest_path "/out" "a.png" = safe_dest_path "/out" "a.png" :=
  ⟨rfl, rfl, C5_safe_dest_path_deterministic "/out" "a.png" "/out" "a.png" rfl rfl⟩

/-! ## Claim C6 -/

/-- C6: The pipeline returns failure exactly when no eligible image is
staged from the source listing; in that case the message is
"No valid images found" and the output directory is untouched (the staging
tree having been discarded), and in every other case — regardless of
per-file decode failures — it returns success with the summary report. -/
theorem C6_failure_iff_no_staged (dir : String) (src : List SrcFile) (out0 : OutDir) :
    ((process_images_locally dir src out0).success = false ↔
      src.filter (fun f => hasImageExt f.name) = []) ∧
    ((process_images_locally dir src out0).success = false →
      (process_images_locally dir src out0).message = "No valid images found" ∧
      (process_images_locally dir src out0).out = out0) ∧
    ((process_images_locally dir src out0).success = true →
      (process_images_locally dir src out0).message =
        mkSummary (process_images_locally dir src out0).processed
          (process_images_locally dir src out0).squareCopied
          (process_images_locally dir src out0).movedCount
          (process_images_locally dir src out0).out.length
          (pathJoin dir "squared_results")) := by
  by_cases hempty : (src.filter (fun f => hasImageExt f.name)).isEmpty = true
  · have hnil := List.isEmpty_iff.mp hempty
    refine ⟨?_, ?_, ?_⟩ <;> simp [process_images_locally, hempty, hnil]
  · simp only [Bool.not_eq_true] at hempty
    have hne : src.filter (fun f => hasImageExt f.name) ≠ [] := by
      intro h0
      rw [h0] at hempty
      simp at hempty
    refine ⟨?_, ?_, ?_⟩ <;> simp [process_images_locally, hempty, hne]

/-- Witness for C6: an empty source listing fails with the exact message,
and a one-square-image listing succeeds. -/
theorem C6_witness :
    (process_images_locally "/d" [] []).success = false ∧
    (process_images_locally "/d" [] []).message = "No valid images found" ∧
    (process_images_locally "/d" [⟨"a.png", FileData.image 4 4⟩] []).success = true ∧
    (process_images_locally "/d" [⟨"a.png", FileData.image 4 4⟩] []).message =
      mkSummary (process_images_locally "/d" [⟨"a.png", FileData.image 4 4⟩] []).processed
        (process_images_locally "/d" [⟨"a.png", FileData.image 4 4⟩] []).squareCopied
        (process_images_locally "/d" [⟨"a.png", FileData.image 4 4⟩] []).movedCount
        (process_images_locally "/d" [⟨"a.png", FileData.image 4 4⟩] []).out.length
        (pathJoin "/d" "squared_results") := by
  refine ⟨?_, ?_, ?_, ?_⟩
  · exact ((C6_failure_iff_no_staged "/d" [] []).1).mpr (by decide)
  · exact ((C6_failure_iff_no_staged "/d" [] []).2.1
      (((C6_failure_iff_no_staged "/d" [] []).1).mpr (by decide))).1
  · decide
  · exact (C6_failure_iff_no_staged "/d" [⟨"a.png", FileData.image 4 4⟩] []).2.2 (by decide)

/-! ## Claim C10 -/

/-- C10: Each data row of `filename_mapping.csv` is the literal
concatenation `original ++ "," ++ new ++ "\n"`, appended after the header
in recording order, with no quoting or escaping — so this holds verbatim
even for filenames containing commas or newlines. -/
theorem C10_csv_rows_unescaped (m : List (String × String)) :
    csvContent m = "original_filename,new_filename\n" ++ rowsConcat m := by
  suffices h : ∀ acc : String,
      List.foldl (fun acc p => acc ++ p.1 ++ "," ++ p.2 ++ "\n") acc m = acc ++ rowsConcat m by
    simpa [csvContent] using h "original_filename,new_filename\n"
  induction m with
  | nil => intro acc; simp [rowsConcat]
  | cons p l ih =>
      intro acc
      simp only [List.foldl_cons, rowsConcat]
      rw [ih]
      simp [String.append_assoc]

/-! ## Claim C9 -/

/-- C9: Totality of the classifier.  `is_image_square` is a total function
returning a Boolean (the embedding needs no error monad because the source
catches every exception internally): a decode failure yields `false`,
which is exactly the value returned for a readable non-square image, so the
two are indistinguishable at the classifier's interface; consequently an
unreadable file whose destination is free enters the non-square processing
branch of the main loop, whose exception handler emits the per-file
failure diagnostic. -/
theorem C9_classifier_total (p q : String) (w h : Nat) (b n : String) (st : RunState) :
    (is_image_square p FileData.unreadable).1 = false ∧
    ((is_image_square p (FileData.image w h)).1 = (w == h)) ∧
    (w ≠ h →
      (is_image_square p (FileData.image w h)).1 = (is_image_square q FileData.unreadable).1) ∧
    (memName st.out (safe_dest_path b n).new_name = false →
      (mainStep b ⟨n, FileData.unreadable⟩ st).log =
        st.log ++ [LogEvent.warnCheck (basename n), LogEvent.failedFile n]) := by
  refine ⟨rfl, rfl, ?_, ?_⟩
  · intro hne
    simp only [is_image_square]
    exact beq_eq_false_iff_ne.mpr hne
  · intro hm
    simp [mainStep, hm, is_image_square, basename_pathJoin]

/-- Witness for C9 at a concrete unreadable file and a concrete 2×3
image, with an empty output directory. -/
theorem C9_witness :
    (is_image_square "u.png" FileData.unreadable).1 = false ∧
    ((is_image_square "u.png" (FileData.image 2 3)).1 = (2 == 3)) ∧
    (is_image_square "u.png" (FileData.image 2 3)).1 =
      (is_image_square "v.png" FileData.unreadable).1 ∧
    (mainStep "/o" ⟨"u.png", FileData.unreadable⟩ ⟨[], [], 0, 0, 0, [], []⟩).log =
      ([] : List LogEvent) ++
        [LogEvent.warnCheck (basename "u.png"), LogEvent.failedFile "u.png"] := by
  have h9 := C9_classifier_total "u.png" "v.png" 2 3 "/o" "u.png" ⟨[], [], 0, 0, 0, [], []⟩
  exact ⟨h9.1, h9.2.1, h9.2.2.1 (by decide), h9.2.2.2 (by decide)⟩

/-! ## Claim C3 -/

/-- C3 counterexample: classification does not yield a distinct
`Unreadable` result.  `is_image_square` returns a plain Boolean and maps a
decode failure to `false` — the very value it returns for a readable
non-square image — so there is no third, distinct outcome at the
classifier's interface. -/
theorem C3_counterexample :
    (is_image_square "u.png" FileData.unreadable).1 =
      (is_image_square "n.png" (FileData.image 200 100)).1 ∧
    (is_image_square "u.png" FileData.unreadable).1 = false := by
  decide

/-- C3 as amended: a file whose decode fails is classified `false` (not a
distinct Unreadable value) and then enters the non-square branch, where
the second decode failure is caught: the file is logged with a warning and
a per-file failure line, nothing is written to the output in any stage,
no counter is incremented, and — the steps being total functions on the
run state — the batch continues with the remaining files. -/
theorem C3_amended_unreadable_skipped (b n : String) (st : RunState) :
    (is_image_square n FileData.unreadable).1 = false ∧
    (mainStep b ⟨n, FileData.unreadable⟩ st).out = st.out ∧
    (mainStep b ⟨n, FileData.unreadable⟩ st).processed = st.processed ∧
    (mainStep b ⟨n, FileData.unreadable⟩ st).squareCopied = st.squareCopied ∧
    (mainStep b ⟨n, FileData.unreadable⟩ st).renamedMap = st.renamedMap ∧
    (sweepStep b ⟨n, FileData.unreadable⟩ st).out = st.out ∧
    (verifyStep b ⟨n, FileData.unreadable⟩ st).out = st.out ∧
    (memName st.out (safe_dest_path b n).new_name = false →
      (mainStep b ⟨n, FileData.unreadable⟩ st).log =
        st.log ++ [LogEvent.warnCheck (basename n), LogEvent.failedFile n]) := by
  have hmain := @mainStep_noop b ⟨n, FileData.unreadable⟩ st
    (fun hrd => absurd rfl hrd)
  have hsweep := @sweepStep_noop b ⟨n, FileData.unreadable⟩ st
    (fun _ hrd => absurd rfl hrd)
  have hverify := @verifyStep_noop b ⟨n, FileData.unreadable⟩ st
    (fun _ hrd => absurd rfl hrd)
  refine ⟨rfl, hmain.1, hmain.2.2.1, hmain.2.2.2.1, hmain.2.2.2.2.2,
    hsweep.1, hverify.1, ?_⟩
  intro hm
  simp [mainStep, hm, is_image_square, basename_pathJoin]

/-- Witness for C3's amended claim at a concrete unreadable file with an
empty output directory. -/
theorem C3_amended_witness :
    (is_image_square "u.png" FileData.unreadable).1 = false ∧
    (mainStep "/o" ⟨"u.png", FileData.unreadable⟩ ⟨[], [], 0, 0, 0, [], []⟩).out = [] ∧
    (mainStep "/o" ⟨"u.png", FileData.unreadable⟩ ⟨[], [], 0, 0, 0, [], []⟩).processed = 0 ∧
    (mainStep "/o" ⟨"u.png", FileData.unreadable⟩ ⟨[], [], 0, 0, 0, [], []⟩).log =
      ([] : List LogEvent) ++
        [LogEvent.warnCheck (basename "u.png"), LogEvent.failedFile "u.png"] := by
  have h3 := C3_amended_unreadable_skipped "/o" "u.png" ⟨[], [], 0, 0, 0, [], []⟩
  exact ⟨h3.1, h3.2.1, h3.2.2.1, h3.2.2.2.2.2.2.2 (by decide)⟩

/-! ## Claim C2 -/

/-- C2: the squaring transform.  For a raster with `width ≠ height` the
result has dimensions `(max w h, max w h)`; the source raster sits
unscaled at offsets `((m-w)/2, (m-h)/2)` (floor division); every pixel
outside that box is the white fill; and the right/bottom padding exceeds
the left/top padding by exactly the parity of the dimension difference, so
an odd difference puts the extra pixel on the bottom/right. -/
theorem C2_square_transform (img : Raster) (_hne : img.width ≠ img.height) :
    (squareCanvas img).width = max img.width img.height ∧
    (squareCanvas img).height = max img.width img.height ∧
    (∀ x y, x < img.width → y < img.height →
      (squareCanvas img).pix ((max img.width img.height - img.width) / 2 + x)
        ((max img.width img.height - img.height) / 2 + y) = img.pix x y) ∧
    (∀ x y,
      (x < (max img.width img.height - img.width) / 2 ∨
       (max img.width img.height - img.width) / 2 + img.width ≤ x ∨
       y < (max img.width img.height - img.height) / 2 ∨
       (max img.width img.height - img.height) / 2 + img.height ≤ y) →
      (squareCanvas img).pix x y = white) ∧
    ((max img.width img.height - img.width) -
        (max img.width img.height - img.width) / 2 =
      (max img.width img.height - img.width) / 2 +
        (max img.width img.height - img.width) % 2) ∧
    ((max img.width img.height - img.height) -
        (max img.width img.height - img.height) / 2 =
      (max img.width img.height - img.height) / 2 +
        (max img.width img.height - img.height) % 2) := by
  refine ⟨rfl, rfl, ?_, ?_, by omega, by omega⟩
  · intro x y hx hy
    simp only [squareCanvas, pasteAt, imageNew]
    rw [if_pos ⟨by omega, by omega, by omega, by omega⟩]
    have e1 : (max img.width img.height - img.width) / 2 + x -
        (max img.width img.height - img.width) / 2 = x := by omega
    have e2 : (max img.width img.height - img.height) / 2 + y -
        (max img.width img.height - img.height) / 2 = y := by omega
    rw [e1, e2]
  · intro x y hcase
    simp only [squareCanvas, pasteAt, imageNew]
    rw [if_neg]
    rintro ⟨c1, c2, c3, c4⟩
    rcases hcase with hc | hc | hc | hc <;> omega

/-- Witness for C2 on the concrete 3×2 constant raster: dimensions become
3×3, the pasted pixel at source coordinate (1,1) survives, and a pixel in
the padding row is white. -/
theorem C2_witness :
    ((⟨3, 2, fun _ _ => (9, 9, 9)⟩ : Raster).width ≠
      (⟨3, 2, fun _ _ => (9, 9, 9)⟩ : Raster).height) ∧
    (squareCanvas ⟨3, 2, fun _ _ => (9, 9, 9)⟩).width = max 3 2 ∧
    (squareCanvas ⟨3, 2, fun _ _ => (9, 9, 9)⟩).pix ((max 3 2 - 3) / 2 + 1)
      ((max 3 2 - 2) / 2 + 1) = (9, 9, 9) ∧
    (squareCanvas ⟨3, 2, fun _ _ => (9, 9, 9)⟩).pix 0 2 = white := by
  have hne : ((⟨3, 2, fun _ _ => (9, 9, 9)⟩ : Raster).width ≠
      (⟨3, 2, fun _ _ => (9, 9, 9)⟩ : Raster).height) := by decide
  have h2 := C2_square_transform ⟨3, 2, fun _ _ => (9, 9, 9)⟩ hne
  exact ⟨hne, h2.1, h2.2.2.1 1 1 (by decide) (by decide),
    h2.2.2.2.1 0 2 (by right; right; right; decide)⟩

/-! ## Length lemmas for `safe_dest_path` -/

theorem strLength_data (s : String) : s.length = s.data.length := rfl

theorem strLength_append (s t : String) : (s ++ t).length = s.length + t.length := by
  rw [strLength_data, strData_append, List.length_append, strLength_data, strLength_data]

theorem strTake_length (s : String) (k : Nat) : (strTake s k).length = min k s.length := by
  rw [strTake, strLength_data, strLength_data]
  exact List.length_take k s.data

theorem toHexAux_length (w : Nat) : ∀ n, (toHexAux w n).length = w := by
  induction w with
  | zero => intro n; rfl
  | succ w ih => intro n; simp [toHexAux, ih]

theorem toHex_length (w n : Nat) : (toHex w n).length = w := by
  rw [toHex, strLength_data]
  exact toHexAux_length w n

theorem sha1hexdigest_length (msg : List Nat) : (sha1hexdigest msg).length = 40 := by
  simp only [sha1hexdigest]
  rcases sha1state msg with ⟨a, b, c, d, e⟩
  simp [strLength_append, toHex_length]

theorem sha1_8_length (s : String) : (sha1_8 s).length = 8 := by
  rw [sha1_8, strTake_length, sha1hexdigest_length]
  decide

theorem pathJoin_length (b n : String) (hb : endsWithStr b "/" = false) :
    (pathJoin b n).length = b.length + 1 + n.length := by
  simp only [pathJoin, hb, Bool.false_eq_true, if_false]
  rw [strLength_append, strLength_append]
  rfl

theorem shortName_length (f : String) (k : Nat) :
    (strTake (splitext f).1 k ++ "-" ++ sha1_8 f ++ (splitext f).2).length =
      min k (splitext f).1.length + 9 + (splitext f).2.length := by
  rw [strLength_append, strLength_append, strLength_append, strTake_length, sha1_8_length]
  rfl

/-! ## Claim C4 -/

set_option maxRecDepth 1000000 in
/-- C4 counterexample: under a 220-character base directory, a 50-character
stem with extension ".png" is shortened, yet the returned destination path
is 284 characters long — over the 240-character limit.  The "final guard"
subtracts the overshoot from the stem allowance `keep` instead of from the
stem's actual (shorter) length, so the second truncation is a no-op. -/
theorem C4_counterexample :
    (safe_dest_path deepBase longStemName).was_shortened = true ∧
    (safe_dest_path deepBase longStemName).dest_path.length = 284 ∧
    MAX_PATH < (safe_dest_path deepBase longStemName).dest_path.length := by
  decide

/-- C4 as amended: whenever `safe_dest_path` shortens, the destination is
the base directory joined with the returned name, which is a truncated
stem plus the intact `-<8-hex-fingerprint><original extension>` suffix;
the filename component stays within the 200-character limit whenever the
extension is at most 190 characters; and the full path stays within the
240-character limit provided additionally that the original stem reaches
the component allowance (stem + extension at least 191 characters) and the
base directory leaves room for at least a one-character stem
(`len(base) + 11 + len(ext) ≤ 240`).  Outside those provisos the path
limit can be exceeded, as the counterexample shows. -/
theorem C4_amended (b f : String)
    (hb : endsWithStr b "/" = false)
    (hsh : (safe_dest_path b f).was_shortened = true) :
    (safe_dest_path b f).dest_path = pathJoin b (safe_dest_path b f).new_name ∧
    (∃ k, (safe_dest_path b f).new_name =
      strTake (splitext f).1 k ++ "-" ++ sha1_8 f ++ (splitext f).2) ∧
    ((splitext f).2.length ≤ 190 →
      (safe_dest_path b f).new_name.length ≤ MAX_COMPONENT) ∧
    ((splitext f).2.length ≤ 190 →
      191 ≤ (splitext f).1.length + (splitext f).2.length →
      b.length + 11 + (splitext f).2.length ≤ MAX_PATH →
      (safe_dest_path b f).dest_path.length ≤ MAX_PATH) := by
  by_cases hc : (basename f).length ≤ MAX_COMPONENT ∧ (pathJoin b f).length ≤ MAX_PATH
  · exfalso
    simp [safe_dest_path, hc] at hsh
  · have hlen1 : (pathJoin b
        (strTake (splitext f).1 (max 1 (MAX_COMPONENT - (splitext f).2.length - 9)) ++ "-" ++
          sha1_8 f ++ (splitext f).2)).length =
        b.length + 1 + (min (max 1 (MAX_COMPONENT - (splitext f).2.length - 9))
          (splitext f).1.length + 9 + (splitext f).2.length) := by
      rw [pathJoin_length b _ hb, shortName_length]
    simp only [safe_dest_path]
    rw [if_neg hc]
    split
    · rename_i hd
      rw [hlen1] at hd
      refine ⟨rfl, ⟨_, rfl⟩, ?_, ?_⟩
      · intro hext
        dsimp only
        rw [shortName_length, hlen1]
        simp only [MAX_COMPONENT] at *
        omega
      · intro hext hstem hbase
        dsimp only
        rw [hlen1, pathJoin_length b _ hb, shortName_length]
        simp only [MAX_COMPONENT, MAX_PATH] at *
        omega
    · rename_i hd
      rw [hlen1] at hd
      refine ⟨rfl, ⟨_, rfl⟩, ?_, ?_⟩
      · intro hext
        dsimp only
        rw [shortName_length]
        simp only [MAX_COMPONENT] at *
        omega
      · intro _ _ _
        dsimp only
        rw [hlen1]
        simp only [MAX_PATH] at *
        omega

set_option maxRecDepth 1000000 in
/-- Witness for C4's amended claim: a 250-character stem with ".png"
extension under the short base "/out" satisfies all three provisos. -/
theorem C4_amended_witness :
    endsWithStr "/out" "/" = false ∧
    (safe_dest_path "/out" longUnreadableName).was_shortened = true ∧
    (safe_dest_path "/out" longUnreadableName).dest_path =
      pathJoin "/out" (safe_dest_path "/out" longUnreadableName).new_name ∧
    (safe_dest_path "/out" longUnreadableName).new_name.length ≤ MAX_COMPONENT ∧
    (safe_dest_path "/out" longUnreadableName).dest_path.length ≤ MAX_PATH := by
  have h4 := C4_amended "/out" longUnreadableName (by decide) (by decide)
  exact ⟨by decide, by decide, h4.1, h4.2.2.1 (by decide),
    h4.2.2.2 (by decide) (by decide) (by decide)⟩

/-! ## Claim C7 -/

/-- C7 counterexample: the extension ".jfif" maps (through the encoder's
extension registry) to the lossy JPEG format, yet the pipeline's encode
step — which tests only for ".jpg"/".jpeg" — saves such a canvas with the
encoder's default settings rather than the fixed quality-95 setting. -/
theorem C7_counterexample :
    extFormat ".jfif" = some ImgFormat.jpeg ∧
    lossyFormat ImgFormat.jpeg = true ∧
    (encodeCall "img.jfif").fmt = some ImgFormat.jpeg ∧
    (encodeCall "img.jfif").quality ≠ some 95 := by
  decide

/-- C7 as amended: a canvas whose original lower-cased extension is
exactly ".jpg" or ".jpeg" is encoded as JPEG with the fixed quality-95
setting; every other extension (including the lossy-format extensions
".jfif" and ".webp") is encoded in the format implied by the extension
with that format's default settings. -/
theorem C7_amended (filename : String) :
    (strLower (splitext filename).2 = ".jpg" ∨ strLower (splitext filename).2 = ".jpeg" →
      encodeCall filename = ⟨some ImgFormat.jpeg, some 95⟩) ∧
    (strLower (splitext filename).2 ≠ ".jpg" → strLower (splitext filename).2 ≠ ".jpeg" →
      encodeCall filename = ⟨extFormat (strLower (splitext filename).2), none⟩) := by
  constructor
  · intro h
    simp only [encodeCall]
    rw [if_pos h]
  · intro h1 h2
    simp only [encodeCall]
    rw [if_neg]
    rintro (h | h)
    · exact h1 h
    · exact h2 h

/-- Witness for C7's amended claim at one JPEG filename and one PNG
filename. -/
theorem C7_witness :
    encodeCall "a.JPG" = ⟨some ImgFormat.jpeg, some 95⟩ ∧
    encodeCall "b.png" = ⟨extFormat (strLower (splitext "b.png").2), none⟩ ∧
    strLower (splitext "a.JPG").2 = ".jpg" :=
  ⟨(C7_amended "a.JPG").1 (Or.inl (by decide)),
   (C7_amended "b.png").2 (by decide) (by decide),
   by decide⟩

/-! ## Rename-map bookkeeping lemmas (for C8) -/

theorem writeRenameMap_renamedMap (st : RunState) :
    (writeRenameMap st).renamedMap = st.renamedMap := by
  simp only [writeRenameMap]
  split <;> rfl

theorem writeRenameMap_of_nil {st : RunState} (h : st.renamedMap = []) :
    writeRenameMap st = st := by
  simp [writeRenameMap, h]

theorem writeRenameMap_lookup {st : RunState} (h : st.renamedMap ≠ []) :
    List.lookup "filename_mapping.csv" (writeRenameMap st).out =
      some (Entry.csvFile (csvContent st.renamedMap)) := by
  have hie : st.renamedMap.isEmpty = false := by
    cases hh : st.renamedMap with
    | nil => exact absurd hh h
    | cons a l => rfl
  simp [writeRenameMap, hie, List.lookup]

theorem sweepStep_tempOut (b : String) (f : SrcFile) (st : RunState) :
    (sweepStep b f st).tempOut = st.tempOut := by
  simp only [sweepStep]
  split
  · split <;> rfl
  · rfl

theorem verifyStep_tempOut (b : String) (f : SrcFile) (st : RunState) :
    (verifyStep b f st).tempOut = st.tempOut := by
  simp only [verifyStep]
  split
  · split <;> rfl
  · rfl

theorem mainStep_out_cases (b : String) (f : SrcFile) (st : RunState) :
    (mainStep b f st).out = st.out ∨
    ∃ n e, (mainStep b f st).out = (n, e) :: st.out ∧ ∀ c, e ≠ Entry.csvFile c := by
  obtain ⟨nm, d⟩ := f
  by_cases hm : memName st.out (safe_dest_path b nm).new_name = true
  · left; simp [mainStep, hm]
  · simp only [Bool.not_eq_true] at hm
    cases d with
    | unreadable => left; simp [mainStep, hm, is_image_square]
    | image w hh =>
        by_cases hw : (w == hh) = true
        · right
          exact ⟨(safe_dest_path b nm).new_name, Entry.copyOf (FileData.image w hh),
            by simp [mainStep, hm, is_image_square, hw], fun c => by simp⟩
        · simp only [Bool.not_eq_true] at hw
          right
          exact ⟨(safe_dest_path b nm).new_name, Entry.squaredOf (max w hh) (max w hh),
            by simp [mainStep, hm, is_image_square, hw], fun c => by simp⟩

theorem sweepStep_out_cases (b : String) (f : SrcFile) (st : RunState) :
    (sweepStep b f st).out = st.out ∨
    ∃ n e, (sweepStep b f st).out = (n, e) :: st.out ∧ ∀ c, e ≠ Entry.csvFile c := by
  simp only [sweepStep]
  split
  · split
    · right
      exact ⟨_, _, rfl, fun c => by simp⟩
    · left; rfl
  · left; rfl

theorem verifyStep_out_cases (b : String) (f : SrcFile) (st : RunState) :
    (verifyStep b f st).out = st.out ∨
    ∃ n e, (verifyStep b f st).out = (n, e) :: st.out ∧ ∀ c, e ≠ Entry.csvFile c := by
  simp only [verifyStep]
  split
  · split
    · right
      exact ⟨_, _, rfl, fun c => by simp⟩
    · left; rfl
  · left; rfl

theorem renbound_extend (b fname : String) (out : OutDir) (m : List (String × String)) (e : Entry)
    (hm : memName out (safe_dest_path b fname).new_name = false)
    (h1 : ∀ p ∈ m, memName out (safe_dest_path b p.1).new_name = true)
    (h2 : (m.map Prod.fst).Nodup) :
    (∀ p ∈ m ++ (if (safe_dest_path b fname).was_shortened = true then
        [(fname, (safe_dest_path b fname).new_name)] else []),
      memName (((safe_dest_path b fname).new_name, e) :: out)
        (safe_dest_path b p.1).new_name = true) ∧
    ((m ++ (if (safe_dest_path b fname).was_shortened = true then
        [(fname, (safe_dest_path b fname).new_name)] else [])).map Prod.fst).Nodup := by
  constructor
  · intro p hp
    rcases List.mem_append.mp hp with hp | hp
    · exact memName_cons_of_mem (h1 p hp)
    · split at hp
      · rw [List.mem_singleton] at hp
        subst hp
        exact memName_cons_self
      · cases hp
  · rw [List.map_append]
    split
    · refine List.Nodup.append h2 (List.nodup_singleton fname) ?_
      intro a ha hb
      simp only [List.map_cons, List.map_nil, List.mem_singleton] at hb
      subst hb
      obtain ⟨p, hpmem, hpfst⟩ := List.mem_map.mp ha
      have hmem := h1 p hpmem
      rw [hpfst] at hmem
      rw [hmem] at hm
      cases hm
    · simpa using h2

theorem mainStep_renbound (b : String) (f : SrcFile) (st : RunState)
    (h : RenBound b st) : RenBound b (mainStep b f st) := by
  obtain ⟨nm, d⟩ := f
  by_cases hm : memName st.out (safe_dest_path b nm).new_name = true
  · have heq : mainStep b ⟨nm, d⟩ st = st := by simp [mainStep, hm]
    rw [heq]; exact h
  · simp only [Bool.not_eq_true] at hm
    cases d with
    | unreadable =>
        have h6 := @mainStep_noop b ⟨nm, FileData.unreadable⟩ st
          (fun hrd => absurd rfl hrd)
        exact ⟨fun p hp => by
            rw [h6.1]
            exact h.1 p (h6.2.2.2.2.2 ▸ hp),
          h6.2.2.2.2.2 ▸ h.2⟩
    | image w hh =>
        have key := renbound_extend b nm st.out st.renamedMap
          (Entry.copyOf (FileData.image w hh)) hm h.1 h.2
        have key2 := renbound_extend b nm st.out st.renamedMap
          (Entry.squaredOf (max w hh) (max w hh)) hm h.1 h.2
        by_cases hw : (w == hh) = true
        · have ho : (mainStep b ⟨nm, FileData.image w hh⟩ st).out =
              ((safe_dest_path b nm).new_name, Entry.copyOf (FileData.image w hh)) :: st.out := by
            simp [mainStep, hm, is_image_square, hw]
          have hr : (mainStep b ⟨nm, FileData.image w hh⟩ st).renamedMap =
              st.renamedMap ++ (if (safe_dest_path b nm).was_shortened = true then
                [(nm, (safe_dest_path b nm).new_name)] else []) := by
            simp [mainStep, hm, is_image_square, hw]
          exact ⟨fun p hp => by rw [ho]; exact key.1 p (hr ▸ hp), hr ▸ key.2⟩
        · simp only [Bool.not_eq_true] at hw
          have ho : (mainStep b ⟨nm, FileData.image w hh⟩ st).out =
              ((safe_dest_path b nm).new_name,
                Entry.squaredOf (max w hh) (max w hh)) :: st.out := by
            simp [mainStep, hm, is_image_square, hw]
          have hr : (mainStep b ⟨nm, FileData.image w hh⟩ st).renamedMap =
              st.renamedMap ++ (if (safe_dest_path b nm).was_shortened = true then
                [(nm, (safe_dest_path b nm).new_name)] else []) := by
            simp [mainStep, hm, is_image_square, hw]
          exact ⟨fun p hp => by rw [ho]; exact key2.1 p (hr ▸ hp), hr ▸ key2.2⟩

theorem sweepStep_renbound (b : String) (f : SrcFile) (st : RunState)
    (h : RenBound b st) : RenBound b (sweepStep b f st) := by
  obtain ⟨nm, d⟩ := f
  by_cases he : hasImageExt nm = true
  · by_cases hm : memName st.out (safe_dest_path b nm).new_name = false
    · cases d with
      | unreadable =>
          have heq : (sweepStep b ⟨nm, FileData.unreadable⟩ st).out = st.out ∧
              (sweepStep b ⟨nm, FileData.unreadable⟩ st).renamedMap = st.renamedMap := by
            simp [sweepStep, he, hm, is_image_square]
          exact ⟨fun p hp => by rw [heq.1]; exact h.1 p (heq.2 ▸ hp), heq.2 ▸ h.2⟩
      | image w hh =>
          by_cases hw : (w == hh) = true
          · have key := renbound_extend b nm st.out st.renamedMap
              (Entry.copyOf (FileData.image w hh)) hm h.1 h.2
            have ho : (sweepStep b ⟨nm, FileData.image w hh⟩ st).out =
                ((safe_dest_path b nm).new_name,
                  Entry.copyOf (FileData.image w hh)) :: st.out := by
              simp [sweepStep, he, hm, is_image_square, hw]
            have hr : (sweepStep b ⟨nm, FileData.image w hh⟩ st).renamedMap =
                st.renamedMap ++ (if (safe_dest_path b nm).was_shortened = true then
                  [(nm, (safe_dest_path b nm).new_name)] else []) := by
              simp [sweepStep, he, hm, is_image_square, hw]
            exact ⟨fun p hp => by rw [ho]; exact key.1 p (hr ▸ hp), hr ▸ key.2⟩
          · simp only [Bool.not_eq_true] at hw
            have heq : (sweepStep b ⟨nm, FileData.image w hh⟩ st).out = st.out ∧
                (sweepStep b ⟨nm, FileData.image w hh⟩ st).renamedMap = st.renamedMap := by
              simp [sweepStep, he, hm, is_image_square, hw]
            exact ⟨fun p hp => by rw [heq.1]; exact h.1 p (heq.2 ▸ hp), heq.2 ▸ h.2⟩
    · simp only [Bool.not_eq_false] at hm
      have heq : sweepStep b ⟨nm, d⟩ st = st := by
        simp [sweepStep, he, hm]
      rw [heq]; exact h
  · simp only [Bool.not_eq_true] at he
    have heq : sweepStep b ⟨nm, d⟩ st = st := by
      simp [sweepStep, he]
    rw [heq]; exact h

theorem verifyStep_renbound (b : String) (f : SrcFile) (st : RunState)
    (h : RenBound b st) : RenBound b (verifyStep b f st) := by
  obtain ⟨nm, d⟩ := f
  by_cases he : hasImageExt nm = true
  · cases d with
    | unreadable =>
        have heq : (verifyStep b ⟨nm, FileData.unreadable⟩ st).out = st.out ∧
            (verifyStep b ⟨nm, FileData.unreadable⟩ st).renamedMap = st.renamedMap := by
          simp [verifyStep, he, is_image_square]
        exact ⟨fun p hp => by rw [heq.1]; exact h.1 p (heq.2 ▸ hp), heq.2 ▸ h.2⟩
    | image w hh =>
        by_cases hw : (w == hh) = true
        · by_cases hm : memName st.out (safe_dest_path b nm).new_name = false
          · have key := renbound_extend b nm st.out st.renamedMap
              (Entry.copyOf (FileData.image w hh)) hm h.1 h.2
            have ho : (verifyStep b ⟨nm, FileData.image w hh⟩ st).out =
                ((safe_dest_path b nm).new_name,
                  Entry.copyOf (FileData.image w hh)) :: st.out := by
              simp [verifyStep, he, hm, is_image_square, hw]
            have hr : (verifyStep b ⟨nm, FileData.image w hh⟩ st).renamedMap =
                st.renamedMap ++ (if (safe_dest_path b nm).was_shortened = true then
                  [(nm, (safe_dest_path b nm).new_name)] else []) := by
              simp [verifyStep, he, hm, is_image_square, hw]
            exact ⟨fun p hp => by rw [ho]; exact key.1 p (hr ▸ hp), hr ▸ key.2⟩
          · simp only [Bool.not_eq_false] at hm
            have heq : (verifyStep b ⟨nm, FileData.image w hh⟩ st).out = st.out ∧
                (verifyStep b ⟨nm, FileData.image w hh⟩ st).renamedMap = st.renamedMap := by
              simp [verifyStep, he, hm, is_image_square, hw]
            exact ⟨fun p hp => by rw [heq.1]; exact h.1 p (heq.2 ▸ hp), heq.2 ▸ h.2⟩
        · simp only [Bool.not_eq_true] at hw
          have heq : (verifyStep b ⟨nm, FileData.image w hh⟩ st).out = st.out ∧
              (verifyStep b ⟨nm, FileData.image w hh⟩ st).renamedMap = st.renamedMap := by
            simp [verifyStep, he, is_image_square, hw]
          exact ⟨fun p hp => by rw [heq.1]; exact h.1 p (heq.2 ▸ hp), heq.2 ▸ h.2⟩
  · simp only [Bool.not_eq_true] at he
    have heq : verifyStep b ⟨nm, d⟩ st = st := by
      simp [verifyStep, he]
    rw [heq]; exact h

theorem writeRenameMap_renbound (b : String) (st : RunState)
    (h : RenBound b st) : RenBound b (writeRenameMap st) := by
  have hrm := writeRenameMap_renamedMap st
  exact ⟨fun p hp => writeRenameMap_mono (h.1 p (hrm ▸ hp)), hrm ▸ h.2⟩

/-- Rename-map facts across the five stages: when any rename was recorded
the map file holds exactly the recorded rows; when none was recorded no
map artifact is written this run; and no original filename is recorded
twice. -/
theorem stages_renmap (b : String) (src l : List SrcFile) (out0 : OutDir)
    (st1 st2 st3 st4 st5 : RunState)
    (h1 : st1 = l.foldl (fun st f => mainStep b f st) ⟨out0, [], 0, 0, 0, [], []⟩)
    (h2 : st2 = src.foldl (fun st f => sweepStep b f st) st1)
    (h3 : st3 = st2.tempOut.foldl (moveStep b) st2)
    (h4 : st4 = src.foldl (fun st f => verifyStep b f st) st3)
    (h5 : st5 = writeRenameMap st4) :
    (st5.renamedMap ≠ [] →
      List.lookup "filename_mapping.csv" st5.out =
        some (Entry.csvFile (csvContent st5.renamedMap))) ∧
    (st5.renamedMap = [] →
      ∀ c, ("filename_mapping.csv", Entry.csvFile c) ∈ st5.out →
        ("filename_mapping.csv", Entry.csvFile c) ∈ out0) ∧
    (st5.renamedMap.map Prod.fst).Nodup := by
  have q1 : (∀ c, ("filename_mapping.csv", Entry.csvFile c) ∈ st1.out →
      ("filename_mapping.csv", Entry.csvFile c) ∈ out0) ∧
      st1.tempOut = [] ∧ RenBound b st1 := by
    rw [h1]
    refine foldl_preserve
      (P := fun (st : RunState) => (∀ c, ("filename_mapping.csv", Entry.csvFile c) ∈ st.out →
        ("filename_mapping.csv", Entry.csvFile c) ∈ out0) ∧ st.tempOut = [] ∧ RenBound b st)
      l _ (fun f _ t ht => ?_) ⟨fun c hc => hc, rfl, fun p hp => absurd hp (List.not_mem_nil p),
        List.nodup_nil⟩
    refine ⟨?_, mainStep_tempOut ht.2.1, mainStep_renbound b f t ht.2.2⟩
    rcases mainStep_out_cases b f t with hcase | ⟨n, e, hcase, hne⟩
    · intro c hc; exact ht.1 c (hcase ▸ hc)
    · intro c hc
      rw [hcase] at hc
      rcases List.mem_cons.mp hc with hhd | htl
      · exact absurd (congrArg Prod.snd hhd).symm (hne c)
      · exact ht.1 c htl
  have q2 : (∀ c, ("filename_mapping.csv", Entry.csvFile c) ∈ st2.out →
      ("filename_mapping.csv", Entry.csvFile c) ∈ out0) ∧
      st2.tempOut = [] ∧ RenBound b st2 := by
    rw [h2]
    refine foldl_preserve
      (P := fun (st : RunState) => (∀ c, ("filename_mapping.csv", Entry.csvFile c) ∈ st.out →
        ("filename_mapping.csv", Entry.csvFile c) ∈ out0) ∧ st.tempOut = [] ∧ RenBound b st)
      src st1 (fun f _ t ht => ?_) q1
    refine ⟨?_, (sweepStep_tempOut b f t).trans ht.2.1, sweepStep_renbound b f t ht.2.2⟩
    rcases sweepStep_out_cases b f t with hcase | ⟨n, e, hcase, hne⟩
    · intro c hc; exact ht.1 c (hcase ▸ hc)
    · intro c hc
      rw [hcase] at hc
      rcases List.mem_cons.mp hc with hhd | htl
      · exact absurd (congrArg Prod.snd hhd).symm (hne c)
      · exact ht.1 c htl
  have q3 : (∀ c, ("filename_mapping.csv", Entry.csvFile c) ∈ st3.out →
      ("filename_mapping.csv", Entry.csvFile c) ∈ out0) ∧
      st3.tempOut = [] ∧ RenBound b st3 := by
    rw [h3, q2.2.1]
    exact q2
  have q4 : (∀ c, ("filename_mapping.csv", Entry.csvFile c) ∈ st4.out →
      ("filename_mapping.csv", Entry.csvFile c) ∈ out0) ∧
      st4.tempOut = [] ∧ RenBound b st4 := by
    rw [h4]
    refine foldl_preserve
      (P := fun (st : RunState) => (∀ c, ("filename_mapping.csv", Entry.csvFile c) ∈ st.out →
        ("filename_mapping.csv", Entry.csvFile c) ∈ out0) ∧ st.tempOut = [] ∧ RenBound b st)
      src st3 (fun f _ t ht => ?_) q3
    refine ⟨?_, (verifyStep_tempOut b f t).trans ht.2.1, verifyStep_renbound b f t ht.2.2⟩
    rcases verifyStep_out_cases b f t with hcase | ⟨n, e, hcase, hne⟩
    · intro c hc; exact ht.1 c (hcase ▸ hc)
    · intro c hc
      rw [hcase] at hc
      rcases List.mem_cons.mp hc with hhd | htl
      · exact absurd (congrArg Prod.snd hhd).symm (hne c)
      · exact ht.1 c htl
  refine ⟨?_, ?_, ?_⟩
  · intro hne
    rw [h5, writeRenameMap_renamedMap] at hne ⊢
    exact writeRenameMap_lookup hne
  · intro hnil c hc
    rw [h5, writeRenameMap_renamedMap] at hnil
    rw [h5, writeRenameMap_of_nil hnil] at hc
    exact q4.1 c hc
  · rw [h5, writeRenameMap_renamedMap]
    exact q4.2.2.2

/-! ## Claim C8 -/

set_option maxRecDepth 1000000 in
/-- C8 counterexample: a source containing a single unreadable file with a
254-character name.  The name is resolved with `was_shortened = true` (at
the skip check and in both sweep passes), yet the run records no rename,
writes nothing — not even the mapping artifact — so the mapping file does
not contain one row for this file that was resolved with
`was_shortened = true` during the run. -/
theorem C8_counterexample :
    (safe_dest_path (pathJoin "/pics" "squared_results") longUnreadableName).was_shortened
      = true ∧
    (process_images_locally "/pics" [⟨longUnreadableName, FileData.unreadable⟩] []).renamedMap
      = [] ∧
    memName (process_images_locally "/pics" [⟨longUnreadableName, FileData.unreadable⟩] []).out
      "filename_mapping.csv" = false ∧
    (process_images_locally "/pics" [⟨longUnreadableName, FileData.unreadable⟩] []).out
      = [] := by
  decide

/-- C8 as amended: the sidecar mapping artifact is written exactly when at
least one rename was recorded during the run — that is, when a file was
actually written to the output under a shortened name — and then its
content is the header plus exactly one row per recorded pair, in
recording order; when no rename was recorded, no mapping artifact is
written by this run; and no original filename is ever recorded twice.
Files merely resolved with `was_shortened = true` but never written
(already present from an earlier run, or unreadable) produce no row. -/
theorem C8_amended (dir : String) (src : List SrcFile) (out0 : OutDir) :
    ((process_images_locally dir src out0).renamedMap ≠ [] →
      List.lookup "filename_mapping.csv" (process_images_locally dir src out0).out =
        some (Entry.csvFile (csvContent (process_images_locally dir src out0).renamedMap))) ∧
    ((process_images_locally dir src out0).renamedMap = [] →
      ∀ c, ("filename_mapping.csv", Entry.csvFile c) ∈ (process_images_locally dir src out0).out →
        ("filename_mapping.csv", Entry.csvFile c) ∈ out0) ∧
    ((process_images_locally dir src out0).renamedMap.map Prod.fst).Nodup := by
  by_cases hempty : (src.filter (fun f => hasImageExt f.name)).isEmpty = true
  · refine ⟨?_, ?_, ?_⟩ <;> simp [process_images_locally, hempty]
  · simp only [Bool.not_eq_true] at hempty
    simp only [process_images_locally, hempty, Bool.false_eq_true, if_false]
    exact stages_renmap (pathJoin dir "squared_results") src
      (src.filter (fun f => hasImageExt f.name)) out0 _ _ _ _ _ rfl rfl rfl rfl rfl

set_option maxRecDepth 1000000 in
/-- Witness for C8's amended claim: one long-named square image is
shortened and recorded, and the mapping artifact holds exactly that row. -/
theorem C8_amended_witness :
    List.lookup "filename_mapping.csv"
      (process_images_locally "/pics" [⟨longSquareName, FileData.image 7 7⟩] []).out =
      some (Entry.csvFile (csvContent
        (process_images_locally "/pics" [⟨longSquareName, FileData.image 7 7⟩] []).renamedMap)) ∧
    ((process_images_locally "/pics"
      [⟨longSquareName, FileData.image 7 7⟩] []).renamedMap.map Prod.fst).Nodup := by
  have h8 := C8_amended "/pics" [⟨longSquareName, FileData.image 7 7⟩] []
  exact ⟨h8.1 (by decide), h8.2.2⟩

end SquarePipe
